import Mathlib

/-!
Verification of the event journal and mock network driver of
`p2p/simulations/journal.go`.

The `Journal` is a cursor-based, trimming buffer over a subscription's event
stream.  Its sequential state is the triple `(counter, cursor, events)`
(journal.go lines 16-22); the mutex and the subscription handle are
concurrency plumbing with no bearing on the state transitions, which we model
as pure functions.  Go `int` arguments that can be negative are modelled as
`Int`; the `cursor` field is only ever assigned `0` or incremented, so it is
modelled as `Nat` (the `0 ≤ cursor` half of the documented invariant is
carried by the type).  The buffer holds `*event.Event` values, which the
journal treats as opaque, so the model is parametric in the event type `ε`.
-/

namespace Simulations

/-- The sequential state of a `Journal` (journal.go lines 16-22). -/
structure Journal (ε : Type) where
  counter : Nat
  cursor : Nat
  events : List ε
deriving Repr, DecidableEq

/-- The zero-valued journal allocated by `NewJournal` (journal.go line 28):
`&Journal{}` leaves `counter = 0`, `cursor = 0` and a nil `events` slice. -/
def Journal.new {ε : Type} : Journal ε := ⟨0, 0, []⟩

/-- journal.go lines 53-57: `append` extends the buffer with the received
events.  Nothing else in the function body is state-relevant; in particular
`counter` is not touched. -/
def Journal.append {ε : Type} (j : Journal ε) (evs : List ε) : Journal ε :=
  { j with events := j.events ++ evs }

/-- journal.go lines 64-68: `NewEntries` returns `len(self.events) - self.cursor`
as a Go `int`, hence the `Int` result. -/
def Journal.NewEntries {ε : Type} (j : Journal ε) : Int :=
  (j.events.length : Int) - (j.cursor : Int)

/-- journal.go lines 87-93: the private `reset`.  The argument `n` is clamped
to `counter` and the clamped value is then never used; the buffer is trimmed
to `events[cursor:]` and the cursor is renumbered to `0`. -/
def Journal.reset {ε : Type} (j : Journal ε) (n : Int) : Journal ε :=
  let _n : Int := if n > (j.counter : Int) then (j.counter : Int) else n
  { j with events := j.events.drop j.cursor, cursor := 0 }

/-- journal.go lines 81-85: public `Reset` just calls `reset` under the lock. -/
def Journal.Reset {ε : Type} (j : Journal ε) (n : Int) : Journal ε :=
  j.reset n

/-- The cursor-advancing loop of `Read` (journal.go line 73):
`for self.cursor < len(self.events) && f(self.events[self.cursor])`,
incrementing `read` and `cursor` on each iteration.  Returns the final
`(read, cursor)` pair. -/
def readScan {ε : Type} (f : ε → Bool) (events : List ε) (cursor : Nat) :
    Nat × Nat :=
  if h : cursor < events.length then
    if f events[cursor] then
      ((readScan f events (cursor + 1)).1 + 1, (readScan f events (cursor + 1)).2)
    else
      (0, cursor)
  else
    (0, cursor)
termination_by events.length - cursor

/-- journal.go lines 70-79: `Read` runs the scanning loop, then calls
`reset(self.cursor)` with the advanced cursor, and returns `(read, nil)`.
The Go `error` result is modelled as `Option String`; the returned pair and
the post-state are bundled in the result. -/
def Journal.Read {ε : Type} (j : Journal ε) (f : ε → Bool) :
    (Nat × Option String) × Journal ε :=
  let p := readScan f j.events j.cursor
  let j1 : Journal ε := { j with cursor := p.2 }
  ((p.1, none), j1.reset (p.2 : Int))

/-- journal.go lines 95-99: `Counter` returns the `counter` field. -/
def Journal.Counter {ε : Type} (j : Journal ε) : Nat :=
  j.counter

/-- journal.go lines 103-107: `Cursor` returns the `cursor` field. -/
def Journal.Cursor {ε : Type} (j : Journal ε) : Nat :=
  j.cursor

end Simulations

namespace Simulations

/-- The scanning loop advances the cursor over exactly the longest prefix of
the unread suffix on which the predicate holds (induction on the remaining
length `events.length - c`). -/
lemma readScan_spec {ε : Type} (f : ε → Bool) (events : List ε) :
    ∀ (k c : Nat), events.length - c ≤ k →
      readScan f events c =
        (((events.drop c).takeWhile f).length,
          c + ((events.drop c).takeWhile f).length) := by
  intro k
  induction k with
  | zero =>
    intro c hc
    have h : ¬ c < events.length := by omega
    rw [readScan]
    simp [h, List.drop_eq_nil_of_le (by omega : events.length ≤ c)]
  | succ k ih =>
    intro c hc
    rw [readScan]
    by_cases h : c < events.length
    · have hdrop : events.drop c = events[c] :: events.drop (c + 1) :=
        List.drop_eq_getElem_cons h
      by_cases hf : f events[c] = true
      · rw [dif_pos h, if_pos hf, ih (c + 1) (by omega), hdrop,
          List.takeWhile_cons, if_pos hf]
        simp only [List.length_cons, Prod.mk.injEq]
        exact ⟨trivial, by omega⟩
      · rw [dif_pos h, if_neg hf, hdrop, List.takeWhile_cons, if_neg hf]
        simp
    · rw [dif_neg h]
      simp [List.drop_eq_nil_of_le (by omega : events.length ≤ c)]

lemma readScan_eq {ε : Type} (f : ε → Bool) (events : List ε) (c : Nat) :
    readScan f events c =
      (((events.drop c).takeWhile f).length,
        c + ((events.drop c).takeWhile f).length) :=
  readScan_spec f events (events.length - c) c le_rfl

/-- Closed form of `Read`: it returns the length of the satisfying prefix of
the unread suffix, a nil error, and the journal trimmed past the consumed
entries with the cursor renumbered to `0`. -/
lemma Read_eq {ε : Type} (j : Journal ε) (f : ε → Bool) :
    j.Read f =
      ((((j.events.drop j.cursor).takeWhile f).length, none),
        ⟨j.counter, 0,
          j.events.drop
            (j.cursor + ((j.events.drop j.cursor).takeWhile f).length)⟩) := by
  simp [Journal.Read, Journal.reset, readScan_eq]

/-- If the predicate holds on the first `k` entries of a list and fails on the
`k`-th, the satisfying prefix has length exactly `k`. -/
lemma length_takeWhile_eq_of {α : Type} (f : α → Bool) :
    ∀ (l : List α) (k : Nat) (hk : k < l.length),
      (∀ (i : Nat) (hi : i < l.length), i < k → f (l.get ⟨i, hi⟩) = true) →
      f (l.get ⟨k, hk⟩) = false →
      (l.takeWhile f).length = k := by
  intro l
  induction l with
  | nil => intro k hk _ _; simp at hk
  | cons a t ih =>
    intro k hk htrue hfalse
    cases k with
    | zero =>
      have ha : f a = false := hfalse
      simp [List.takeWhile_cons, ha]
    | succ k =>
      have ha : f a = true := htrue 0 (by simp) (by omega)
      simp only [List.takeWhile_cons, ha, if_pos, List.length_cons]
      have := ih k (by simpa using hk)
        (fun i hi hik => htrue (i + 1) (by simpa using hi) (by omega))
        (by simpa using hfalse)
      omega

/-- Claim C1: for every Journal, `Counter()` returns the total number of events
ever appended, and appending an event increases it by one.  FALSE of the code:
no statement in journal.go ever increments `counter` — `append` (lines 53-57)
only extends `events` — so `Counter()` is invariantly `0`.  The theorem
records the actual behaviour: `append` leaves `Counter` unchanged, and in
particular after appending one event to a fresh journal `Counter` is still
`0`, not `1` as the claim requires. -/
theorem journal_counter_never_incremented :
    (∀ (ε : Type) (j : Journal ε) (evs : List ε),
      (j.append evs).Counter = j.Counter) ∧
    ((Journal.new : Journal Nat).append [0]).Counter = 0 := by
  exact ⟨fun ε j evs => rfl, rfl⟩

/-- Claim C2: `Reset(n)` drops the entries before the current cursor,
renumbers the cursor to `0`, and ignores `n` beyond clamping it, so
`Reset n = Reset m` for all `n`, `m`. -/
theorem journal_reset_ignores_argument :
    ∀ (ε : Type) (j : Journal ε) (n m : Int),
      j.Reset n = ⟨j.counter, 0, j.events.drop j.cursor⟩ ∧
      j.Reset n = j.Reset m := by
  exact fun ε j n m => ⟨rfl, rfl⟩

/-- Claim C7: `Read` never produces an error: the error component of its
result is `nil` for every journal state and every predicate. -/
theorem journal_read_no_error :
    ∀ (ε : Type) (j : Journal ε) (f : ε → Bool),
      (j.Read f).1.2 = none := by
  exact fun ε j f => rfl

/-- Concrete journal used by witnesses: cursor `1`, three buffered events. -/
def jW : Journal Nat := ⟨0, 1, [10, 20, 30]⟩

/-- Concrete journal used by witnesses: cursor `0`, unread events `[1, 2, 3]`. -/
def jR : Journal Nat := ⟨0, 0, [1, 2, 3]⟩

/-- Concrete predicate: accepts odd numbers (true on `1`, false on `2`). -/
def fodd : Nat → Bool := fun x => decide (x % 2 = 1)

/-- Concrete predicate: accepts numbers below `25`. -/
def fsmall : Nat → Bool := fun x => decide (x < 25)

/-- Claim C3: `Read` consumes exactly the longest prefix of the unread events
on which the predicate returns true and returns its length; in particular if
the predicate first fails on the entry at unread offset `k` (0-indexed) while
holding on all earlier ones, `Read` returns `k`. -/
theorem journal_read_longest_satisfying {ε : Type} (j : Journal ε) (f : ε → Bool) :
    (j.Read f).1.1 = ((j.events.drop j.cursor).takeWhile f).length ∧
    (∀ (k : Nat) (hk : k < (j.events.drop j.cursor).length),
      (∀ (i : Nat) (hi : i < (j.events.drop j.cursor).length), i < k →
        f ((j.events.drop j.cursor).get ⟨i, hi⟩) = true) →
      f ((j.events.drop j.cursor).get ⟨k, hk⟩) = false →
      (j.Read f).1.1 = k) := by
  constructor
  · simp [Read_eq]
  · intro k hk htrue hfalse
    simp only [Read_eq]
    exact length_takeWhile_eq_of f (j.events.drop j.cursor) k hk htrue hfalse

/-- Witness for C3: on the journal `⟨0, 0, [1, 2, 3]⟩` with the oddness
predicate, the predicate fails first at unread offset `1`, so `Read`
returns `1`. -/
theorem journal_read_longest_satisfying_witness :
    (jR.Read fodd).1.1 = 1 :=
  (journal_read_longest_satisfying jR fodd).2 1 (by decide) (by decide) (by decide)

/-- Claim C4: every `Read` trims the buffer: on return the events buffer holds
exactly the previously-unread entries that were not consumed, and the cursor
is renumbered to `0`. -/
theorem journal_read_trims {ε : Type} (j : Journal ε) (f : ε → Bool) :
    ((j.Read f).2).events = (j.events.drop j.cursor).drop ((j.Read f).1.1) ∧
    ((j.Read f).2).cursor = 0 := by
  constructor
  · simp only [Read_eq, List.drop_drop]
  · simp [Read_eq]

/-- Claim C5: `NewEntries` returns `len(events) - cursor`; this backlog grows
by one on each appended event, does not grow under `Read`, and is preserved by
`Reset` (which drops only already-read entries). -/
theorem journal_newEntries {ε : Type} (j : Journal ε)
    (hc : j.cursor ≤ j.events.length) (e : ε) (f : ε → Bool) (n : Int) :
    j.NewEntries = (j.events.length : Int) - (j.cursor : Int) ∧
    (j.append [e]).NewEntries = j.NewEntries + 1 ∧
    ((j.Read f).2).NewEntries ≤ j.NewEntries ∧
    (j.Reset n).NewEntries = j.NewEntries := by
  refine ⟨rfl, ?_, ?_, ?_⟩
  · simp only [Journal.append, Journal.NewEntries, List.length_append,
      List.length_cons, List.length_nil]
    push_cast
    ring
  · have hlen : ((j.events.drop j.cursor).takeWhile f).length ≤
        (j.events.drop j.cursor).length :=
      (List.takeWhile_sublist f).length_le
    have hdl : (j.events.drop j.cursor).length = j.events.length - j.cursor :=
      List.length_drop j.cursor j.events
    simp only [Read_eq, Journal.NewEntries, List.length_drop]
    omega
  · simp only [Journal.Reset, Journal.reset, Journal.NewEntries,
      List.length_drop]
    omega

/-- Witness for C5: the concrete journal `⟨0, 1, [10, 20, 30]⟩` satisfies the
cursor bound, and the four conjuncts hold there. -/
theorem journal_newEntries_witness :
    jW.cursor ≤ jW.events.length ∧
    (jW.NewEntries = (jW.events.length : Int) - (jW.cursor : Int) ∧
      (jW.append [7]).NewEntries = jW.NewEntries + 1 ∧
      ((jW.Read fsmall).2).NewEntries ≤ jW.NewEntries ∧
      (jW.Reset 5).NewEntries = jW.NewEntries) :=
  ⟨by decide, journal_newEntries jW (by decide) 7 fsmall 5⟩

/-- Claim C6: the invariant `0 ≤ cursor ≤ len(events)` holds initially and is
preserved by every state-changing operation (the accessors do not change the
state).  The lower bound is carried by the `Nat` type of `cursor`; the upper
bound is stated here for the initial state and for `append`, `Read` and
`Reset`. -/
theorem journal_cursor_invariant {ε : Type} (j : Journal ε)
    (h : j.cursor ≤ j.events.length) (evs : List ε) (f : ε → Bool) (n : Int) :
    (Journal.new : Journal ε).cursor ≤ (Journal.new : Journal ε).events.length ∧
    (j.append evs).cursor ≤ (j.append evs).events.length ∧
    ((j.Read f).2).cursor ≤ ((j.Read f).2).events.length ∧
    (j.Reset n).cursor ≤ (j.Reset n).events.length := by
  refine ⟨by simp [Journal.new], ?_, ?_, ?_⟩
  · simp only [Journal.append, List.length_append]
    omega
  · simp [Read_eq]
  · simp [Journal.Reset, Journal.reset]

/-- Witness for C6: the concrete journal `⟨0, 1, [10, 20, 30]⟩` satisfies the
cursor bound, and all four conjuncts hold there. -/
theorem journal_cursor_invariant_witness :
    jW.cursor ≤ jW.events.length ∧
    ((Journal.new : Journal Nat).cursor ≤
        (Journal.new : Journal Nat).events.length ∧
      (jW.append [7]).cursor ≤ (jW.append [7]).events.length ∧
      ((jW.Read fsmall).2).cursor ≤ ((jW.Read fsmall).2).events.length ∧
      (jW.Reset 5).cursor ≤ (jW.Reset 5).events.length) :=
  ⟨by decide, journal_cursor_invariant jW (by decide) [7] fsmall 5⟩

/-- Modelled from the spec: the event source (`event.TypeMux`, not under
`src/`) delivers to each subscriber an ordered channel of events which closes
on unsubscribe, so the stream a `Journal`'s consumption loop observes is a
sequence of received events possibly followed by a closure marker; events
posted after `Close()` are behind the marker and are never received. -/
inductive ChanItem (ε : Type) where
  | msg (e : ε) : ChanItem ε
  | closed : ChanItem ε
deriving Repr, DecidableEq

/-- journal.go lines 41-51: the `Write` loop receives from the subscription
channel; a receive with `ok = false` (modelled by the `closed` marker)
terminates the loop, otherwise the event is appended and the loop continues.
The channel's observed contents are modelled as a finite list. -/
def Journal.Write {ε : Type} (j : Journal ε) : List (ChanItem ε) → Journal ε
  | [] => j
  | .closed :: _ => j
  | .msg e :: rest => (j.append [e]).Write rest

/-- Claim C9: once the consumption loop observes the closed channel (which
`Close()`'s unsubscribe causes), it terminates: whatever the event source does
afterwards (`post`) is never appended, and the buffer ends up holding exactly
the events received before closure. -/
theorem journal_write_stops_at_close {ε : Type} (j : Journal ε)
    (pre : List ε) (post : List (ChanItem ε)) :
    j.Write (pre.map ChanItem.msg ++ ChanItem.closed :: post) =
      j.Write (pre.map ChanItem.msg ++ [ChanItem.closed]) ∧
    (j.Write (pre.map ChanItem.msg ++ ChanItem.closed :: post)).events =
      j.events ++ pre := by
  induction pre generalizing j with
  | nil => exact ⟨rfl, by simp [Journal.Write]⟩
  | cons a t ih =>
    refine ⟨?_, ?_⟩
    · simpa [Journal.Write] using (ih (j.append [a])).1
    · have := (ih (j.append [a])).2
      simp only [List.map_cons, List.cons_append, Journal.Write,
        List.append_eq] at this ⊢
      rw [this]
      simp [Journal.append]

/-- A node identity, an opaque byte sequence (`caller[:]` is compared with
`bytes.Compare` in journal.go line 239). -/
abbrev NodeID := List Nat

/-- Go `bytes.Compare`: lexicographic three-way comparison of byte slices,
negative when the first sorts strictly before the second. -/
def bytesCompare : List Nat → List Nat → Int
  | [], [] => 0
  | [], _ :: _ => -1
  | _ :: _, [] => 1
  | a :: as, b :: bs =>
    if a < b then -1 else if b < a then 1 else bytesCompare as bs

/-- A simulated node, carrying only its identity (used as `&SimNode{ID: …}`
in journal.go lines 162, 210). -/
structure SimNode where
  ID : NodeID
deriving Repr, DecidableEq

/-- A simulated connection: an ordered caller/callee identity pair
(journal.go lines 171-174, 243-246). -/
structure SimConn where
  Caller : NodeID
  Callee : NodeID
deriving Repr, DecidableEq

/-- The dynamic payload of an `Entry` (`Object interface{}`): either a node or
a connection. -/
inductive EObject where
  | node (sn : SimNode) : EObject
  | conn (sc : SimConn) : EObject
deriving Repr, DecidableEq

/-- An `Entry` posted to the event source: `Type` ("Node" or "Conn"),
`Action` ("On" or "Off") and the object (the Go field `Type` is spelled `typ`
here because `Type` is reserved in Lean). -/
structure Entry where
  typ : String
  action : String
  object : EObject
deriving Repr, DecidableEq

/-- journal.go lines 121-124: per-tick counts of state-flip events. -/
structure Delta where
  On : Nat
  Off : Nat
deriving Repr, DecidableEq

/-- journal.go lines 126-132: `oneOutOf(n)` draws `t := rand.Intn(n)` and
returns `1` exactly when `t = 0`.  The random draw `t` is passed in. -/
def oneOutOf (t : Nat) : Nat :=
  if t = 0 then 1 else 0

/-- journal.go lines 134-145: `deltas(i)` is the fixed pair
`[{10, 0}, {20, 0}]` at tick `0` and otherwise four independent `oneOutOf`
draws (whose `rand.Intn` results are passed as `t1 … t4`). -/
def deltas (i : Nat) (t1 t2 t3 t4 : Nat) : List Delta :=
  if i = 0 then [⟨10, 0⟩, ⟨20, 0⟩]
  else [⟨oneOutOf t1, oneOutOf t2⟩, ⟨oneOutOf t3, oneOutOf t4⟩]

/-- journal.go lines 208-221: the node turn-on loop of `MockNetwork`.  While
the off pool is non-empty and fewer than `ds[0].On` nodes have been switched,
draw `c := rand.Intn(len(offNodes))` (the draws are consumed from `draws`;
a `rand.Intn` result is reduced `mod` the pool size, which is the identity for
in-range draws), post a `Node`/`On` entry for `offNodes[c]`, append it to
`onNodes` and remove it from `offNodes`.  Running out of modelled draws
yields `none`. -/
def mockNodeOn : Nat → List SimNode → List NodeID → List Nat →
    Option (List Entry × List SimNode × List NodeID × List Nat)
  | 0, onN, offN, draws => some ([], onN, offN, draws)
  | i + 1, onN, offN, draws =>
    if offN.length = 0 then some ([], onN, offN, draws)
    else
      match draws with
      | [] => none
      | d :: rest =>
        let c := d % offN.length
        let sn : SimNode := ⟨offN.getD c []⟩
        match mockNodeOn i (onN ++ [sn]) (offN.eraseIdx c) rest with
        | none => none
        | some (es, onN', offN', rest') =>
          some (⟨"Node", "On", .node sn⟩ :: es, onN', offN', rest')

/-- journal.go lines 222-235: the node turn-off loop.  While `onNodes` is
non-empty and fewer than `ds[0].Off` nodes have been switched, draw an index
into `onNodes`, post a `Node`/`Off` entry for it, remove it from `onNodes` and
append its identity back to `offNodes`. -/
def mockNodeOff : Nat → List SimNode → List NodeID → List Nat →
    Option (List Entry × List SimNode × List NodeID × List Nat)
  | 0, onN, offN, draws => some ([], onN, offN, draws)
  | i + 1, onN, offN, draws =>
    if onN.length = 0 then some ([], onN, offN, draws)
    else
      match draws with
      | [] => none
      | d :: rest =>
        let c := d % onN.length
        let sn : SimNode := onN.getD c ⟨[]⟩
        match mockNodeOff i (onN.eraseIdx c) (offN ++ [sn.ID]) rest with
        | none => none
        | some (es, onN', offN', rest') =>
          some (⟨"Node", "Off", .node sn⟩ :: es, onN', offN', rest')

/-- journal.go lines 236-256: the connection turn-on loop.  While `onNodes`
has more than one element and fewer than `ds[1].On` connections have been
made, draw a caller and a callee from `onNodes`; if the caller's identity does
not sort strictly before the callee's under `bytes.Compare` the iteration is
re-drawn (`i--; continue`), otherwise a `Conn`/`On` entry is posted and the
connection recorded.  Each comparison consumes two draws; running out of
draws yields `none`. -/
def mockConnOn : Nat → List SimNode → List Nat →
    Option (List Entry × List SimConn × List Nat)
  | 0, _, draws => some ([], [], draws)
  | i + 1, onN, draws =>
    if onN.length ≤ 1 then some ([], [], draws)
    else
      match draws with
      | d1 :: d2 :: rest =>
        let caller := (onN.getD (d1 % onN.length) ⟨[]⟩).ID
        let callee := (onN.getD (d2 % onN.length) ⟨[]⟩).ID
        if bytesCompare caller callee ≥ 0 then
          mockConnOn (i + 1) onN rest
        else
          match mockConnOn i onN rest with
          | none => none
          | some (es, cs, rest') =>
            some (⟨"Conn", "On", .conn ⟨caller, callee⟩⟩ :: es,
              (⟨caller, callee⟩ : SimConn) :: cs, rest')
      | _ => none

/-- journal.go lines 257-268: the connection turn-off loop.  While `onConns`
is non-empty and fewer than `ds[1].Off` connections have been dropped, draw an
index into `onConns`, post a `Conn`/`Off` entry for it and remove it. -/
def mockConnOff : Nat → List SimConn → List Nat →
    Option (List Entry × List SimConn × List Nat)
  | 0, conns, draws => some ([], conns, draws)
  | i + 1, conns, draws =>
    if conns.length = 0 then some ([], conns, draws)
    else
      match draws with
      | [] => none
      | d :: rest =>
        let c := d % conns.length
        let sc := conns.getD c ⟨[], []⟩
        match mockConnOff i (conns.eraseIdx c) rest with
        | none => none
        | some (es, conns', rest') =>
          some (⟨"Conn", "Off", .conn sc⟩ :: es, conns', rest')

/-- The per-tick state of `MockNetwork` (journal.go lines 200-203): the nodes
currently on, the pool of nodes currently off, and the connections currently
on. -/
structure NetState where
  onNodes : List SimNode
  offNodes : List NodeID
  onConns : List SimConn
deriving Repr, DecidableEq

/-- One iteration of the `MockNetwork` tick loop (journal.go lines 206-269):
run the four phase loops in order with the counts `ds[0]` (nodes) and `ds[1]`
(connections), threading the modelled random draws through.  The entries are
returned in post order. -/
def mockTick (st : NetState) (ds : List Delta) (draws : List Nat) :
    Option (List Entry × NetState × List Nat) :=
  let d0 := ds.getD 0 ⟨0, 0⟩
  let d1 := ds.getD 1 ⟨0, 0⟩
  match mockNodeOn d0.On st.onNodes st.offNodes draws with
  | none => none
  | some (es1, onN1, offN1, dr1) =>
    match mockNodeOff d0.Off onN1 offN1 dr1 with
    | none => none
    | some (es2, onN2, offN2, dr2) =>
      match mockConnOn d1.On onN2 dr2 with
      | none => none
      | some (es3, cs, dr3) =>
        match mockConnOff d1.Off (st.onConns ++ cs) dr3 with
        | none => none
        | some (es4, conns4, dr4) =>
          some (es1 ++ es2 ++ es3 ++ es4, ⟨onN2, offN2, conns4⟩, dr4)

/-- Tick `0` of `MockNetwork` started on a fresh pool (journal.go lines
200-207): no on nodes, no on connections, the whole identity pool off, and
the deterministic tick-0 deltas `[{10, 0}, {20, 0}]`. -/
def mockTick0 (ids : List NodeID) (draws : List Nat) :
    Option (List Entry × NetState × List Nat) :=
  mockTick ⟨[], ids, []⟩ (deltas 0 0 0 0 0) draws

/-- Removing the element at a valid index and re-prepending it permutes the
list. -/
lemma perm_getD_cons_eraseIdx {α : Type} (l : List α) (d : α) (c : Nat)
    (h : c < l.length) : l.Perm (l.getD c d :: l.eraseIdx c) := by
  rw [List.getD_eq_getElem l d h, List.eraseIdx_eq_take_drop_succ]
  conv_lhs => rw [← List.take_append_drop c l, List.drop_eq_getElem_cons h]
  exact List.perm_middle

/-- The node turn-on loop only grows `onNodes`, permutes the combined
identity pool, and every entry it posts is a `Node`/`On` entry for a node
that was in the off pool and ends up in the on set. -/
lemma mockNodeOn_events :
    ∀ (i : Nat) (onN : List SimNode) (offN : List NodeID) (draws : List Nat)
      (es : List Entry) (onN' : List SimNode) (offN' : List NodeID)
      (rest : List Nat),
      mockNodeOn i onN offN draws = some (es, onN', offN', rest) →
      onN ⊆ onN' ∧
      (onN'.map SimNode.ID ++ offN').Perm (onN.map SimNode.ID ++ offN) ∧
      ∀ e ∈ es, ∃ sn : SimNode, e = ⟨"Node", "On", .node sn⟩ ∧
        sn.ID ∈ offN ∧ sn ∈ onN' := by
  intro i
  induction i with
  | zero =>
    intro onN offN draws es onN' offN' rest h
    simp only [mockNodeOn, Option.some.injEq, Prod.mk.injEq] at h
    obtain ⟨h1, h2, h3, h4⟩ := h
    subst h1 h2 h3 h4
    exact ⟨List.Subset.refl _, List.Perm.refl _, by simp⟩
  | succ i ih =>
    intro onN offN draws es onN' offN' rest h
    simp only [mockNodeOn] at h
    by_cases hoff : offN.length = 0
    · rw [if_pos hoff] at h
      simp only [Option.some.injEq, Prod.mk.injEq] at h
      obtain ⟨h1, h2, h3, h4⟩ := h
      subst h1 h2 h3 h4
      exact ⟨List.Subset.refl _, List.Perm.refl _, by simp⟩
    · rw [if_neg hoff] at h
      cases draws with
      | nil => simp at h
      | cons d rest0 =>
        simp only [] at h
        have hclt : d % offN.length < offN.length :=
          Nat.mod_lt _ (Nat.pos_of_ne_zero hoff)
        cases hrec : mockNodeOn i (onN ++ [⟨offN.getD (d % offN.length) []⟩])
            (offN.eraseIdx (d % offN.length)) rest0 with
        | none => rw [hrec] at h; simp at h
        | some val =>
          obtain ⟨es0, onN0, offN0, rest0'⟩ := val
          rw [hrec] at h
          simp only [Option.some.injEq, Prod.mk.injEq] at h
          obtain ⟨h1, h2, h3, h4⟩ := h
          subst h1 h2 h3 h4
          obtain ⟨hsub, hperm, hmem⟩ := ih _ _ _ _ _ _ _ hrec
          have hsnmem : (⟨offN.getD (d % offN.length) []⟩ : SimNode).ID ∈ offN := by
            simp only [List.getD_eq_getElem _ _ hclt]
            exact List.getElem_mem hclt
          refine ⟨?_, ?_, ?_⟩
          · exact (List.subset_append_left onN _).trans hsub
          · refine hperm.trans ?_
            have heq : (onN ++ [(⟨offN.getD (d % offN.length) []⟩ : SimNode)]).map
                  SimNode.ID ++ offN.eraseIdx (d % offN.length) =
                onN.map SimNode.ID ++
                  (offN.getD (d % offN.length) [] ::
                    offN.eraseIdx (d % offN.length)) := by
              simp [List.map_append, List.append_assoc]
            rw [heq]
            exact List.Perm.append_left _
              (perm_getD_cons_eraseIdx offN [] _ hclt).symm
          · intro e hin
            rcases List.mem_cons.mp hin with rfl | hin0
            · refine ⟨⟨offN.getD (d % offN.length) []⟩, rfl, hsnmem, ?_⟩
              exact hsub (List.mem_append_right onN (List.mem_singleton_self _))
            · obtain ⟨sn', hesn', hid', hon'⟩ := hmem e hin0
              exact ⟨sn', hesn', List.eraseIdx_subset _ _ hid', hon'⟩

/-- The node turn-off loop only grows `offNodes`, permutes the combined
identity pool, and every entry it posts is a `Node`/`Off` entry for a node
that was in the on set and whose identity ends up back in the off pool. -/
lemma mockNodeOff_events :
    ∀ (i : Nat) (onN : List SimNode) (offN : List NodeID) (draws : List Nat)
      (es : List Entry) (onN' : List SimNode) (offN' : List NodeID)
      (rest : List Nat),
      mockNodeOff i onN offN draws = some (es, onN', offN', rest) →
      offN ⊆ offN' ∧
      (onN'.map SimNode.ID ++ offN').Perm (onN.map SimNode.ID ++ offN) ∧
      ∀ e ∈ es, ∃ sn : SimNode, e = ⟨"Node", "Off", .node sn⟩ ∧
        sn ∈ onN ∧ sn.ID ∈ offN' := by
  intro i
  induction i with
  | zero =>
    intro onN offN draws es onN' offN' rest h
    simp only [mockNodeOff, Option.some.injEq, Prod.mk.injEq] at h
    obtain ⟨h1, h2, h3, h4⟩ := h
    subst h1 h2 h3 h4
    exact ⟨List.Subset.refl _, List.Perm.refl _, by simp⟩
  | succ i ih =>
    intro onN offN draws es onN' offN' rest h
    simp only [mockNodeOff] at h
    by_cases hon : onN.length = 0
    · rw [if_pos hon] at h
      simp only [Option.some.injEq, Prod.mk.injEq] at h
      obtain ⟨h1, h2, h3, h4⟩ := h
      subst h1 h2 h3 h4
      exact ⟨List.Subset.refl _, List.Perm.refl _, by simp⟩
    · rw [if_neg hon] at h
      cases draws with
      | nil => simp at h
      | cons d rest0 =>
        simp only [] at h
        have hclt : d % onN.length < onN.length :=
          Nat.mod_lt _ (Nat.pos_of_ne_zero hon)
        cases hrec : mockNodeOff i (onN.eraseIdx (d % onN.length))
            (offN ++ [(onN.getD (d % onN.length) ⟨[]⟩).ID]) rest0 with
        | none => rw [hrec] at h; simp at h
        | some val =>
          obtain ⟨es0, onN0, offN0, rest0'⟩ := val
          rw [hrec] at h
          simp only [Option.some.injEq, Prod.mk.injEq] at h
          obtain ⟨h1, h2, h3, h4⟩ := h
          subst h1 h2 h3 h4
          obtain ⟨hsub, hperm, hmem⟩ := ih _ _ _ _ _ _ _ hrec
          have hp1 : onN.map SimNode.ID |>.Perm
              ((onN.getD (d % onN.length) ⟨[]⟩).ID ::
                (onN.eraseIdx (d % onN.length)).map SimNode.ID) :=
            (perm_getD_cons_eraseIdx onN ⟨[]⟩ _ hclt).map SimNode.ID
          have hsnmem : onN.getD (d % onN.length) ⟨[]⟩ ∈ onN := by
            rw [List.getD_eq_getElem _ _ hclt]
            exact List.getElem_mem hclt
          refine ⟨?_, ?_, ?_⟩
          · exact (List.subset_append_left offN _).trans hsub
          · refine hperm.trans ?_
            have h5 : (onN.eraseIdx (d % onN.length)).map SimNode.ID ++
                (offN ++ [(onN.getD (d % onN.length) ⟨[]⟩).ID]) =
                ((onN.eraseIdx (d % onN.length)).map SimNode.ID ++ offN) ++
                  [(onN.getD (d % onN.length) ⟨[]⟩).ID] :=
              (List.append_assoc _ _ _).symm
            rw [h5]
            refine List.perm_append_comm.trans ?_
            exact List.Perm.append_right offN hp1.symm
          · intro e hin
            rcases List.mem_cons.mp hin with rfl | hin0
            · refine ⟨onN.getD (d % onN.length) ⟨[]⟩, rfl, hsnmem, ?_⟩
              exact hsub (List.mem_append_right offN (List.mem_singleton_self _))
            · obtain ⟨sn', hesn', hon', hid'⟩ := hmem e hin0
              exact ⟨sn', hesn', List.eraseIdx_subset _ _ hon', hid'⟩

/-- When the count fits in the off pool, the node turn-on loop posts exactly
`i` entries and moves exactly `i` nodes. -/
lemma mockNodeOn_count :
    ∀ (i : Nat) (onN : List SimNode) (offN : List NodeID) (draws : List Nat)
      (es : List Entry) (onN' : List SimNode) (offN' : List NodeID)
      (rest : List Nat),
      mockNodeOn i onN offN draws = some (es, onN', offN', rest) →
      i ≤ offN.length →
      es.length = i ∧ onN'.length = onN.length + i ∧
        offN'.length = offN.length - i := by
  intro i
  induction i with
  | zero =>
    intro onN offN draws es onN' offN' rest h _
    simp only [mockNodeOn, Option.some.injEq, Prod.mk.injEq] at h
    obtain ⟨h1, h2, h3, h4⟩ := h
    subst h1 h2 h3 h4
    simp
  | succ i ih =>
    intro onN offN draws es onN' offN' rest h hle
    have hoff : ¬ offN.length = 0 := by omega
    simp only [mockNodeOn] at h
    rw [if_neg hoff] at h
    cases draws with
    | nil => simp at h
    | cons d rest0 =>
      simp only [] at h
      have hclt : d % offN.length < offN.length :=
        Nat.mod_lt _ (Nat.pos_of_ne_zero hoff)
      cases hrec : mockNodeOn i (onN ++ [⟨offN.getD (d % offN.length) []⟩])
          (offN.eraseIdx (d % offN.length)) rest0 with
      | none => rw [hrec] at h; simp at h
      | some val =>
        obtain ⟨es0, onN0, offN0, rest0'⟩ := val
        rw [hrec] at h
        simp only [Option.some.injEq, Prod.mk.injEq] at h
        obtain ⟨h1, h2, h3, h4⟩ := h
        subst h1 h2 h3 h4
        have hel : (offN.eraseIdx (d % offN.length)).length = offN.length - 1 :=
          List.length_eraseIdx_of_lt hclt
        obtain ⟨hl1, hl2, hl3⟩ := ih _ _ _ _ _ _ _ hrec (by omega)
        refine ⟨by simpa using hl1, ?_, ?_⟩
        · rw [hl2]
          simp only [List.length_append, List.length_cons, List.length_nil]
          omega
        · omega

/-- With more than one node on, the connection turn-on loop posts exactly `i`
entries, each a `Conn`/`On` entry whose caller identity sorts strictly before
its callee identity (strong induction on the number of remaining draws, since
re-draws recurse without decreasing the count). -/
lemma mockConnOn_spec :
    ∀ (n : Nat) (draws : List Nat), draws.length ≤ n →
      ∀ (i : Nat) (onN : List SimNode) (es : List Entry) (cs : List SimConn)
        (rest : List Nat),
        mockConnOn i onN draws = some (es, cs, rest) → 1 < onN.length →
        es.length = i ∧
        ∀ e ∈ es, ∃ sc : SimConn, e = ⟨"Conn", "On", .conn sc⟩ ∧
          bytesCompare sc.Caller sc.Callee < 0 := by
  intro n
  induction n with
  | zero =>
    intro draws hlen i onN es cs rest h hgt
    have hd : draws = [] := List.length_eq_zero.mp (by omega)
    subst hd
    cases i with
    | zero =>
      simp only [mockConnOn, Option.some.injEq, Prod.mk.injEq] at h
      obtain ⟨h1, h2, h3⟩ := h
      subst h1
      exact ⟨rfl, by simp⟩
    | succ i =>
      rw [mockConnOn.eq_def] at h
      simp only [] at h
      rw [if_neg (by omega)] at h
      simp at h
  | succ n ih =>
    intro draws hlen i onN es cs rest h hgt
    cases i with
    | zero =>
      simp only [mockConnOn, Option.some.injEq, Prod.mk.injEq] at h
      obtain ⟨h1, h2, h3⟩ := h
      subst h1
      exact ⟨rfl, by simp⟩
    | succ i =>
      rw [mockConnOn.eq_def] at h
      simp only [] at h
      rw [if_neg (by omega)] at h
      cases draws with
      | nil => simp at h
      | cons d1 tl =>
        cases tl with
        | nil => simp at h
        | cons d2 rest0 =>
          simp only [] at h
          by_cases hcmp : bytesCompare (onN.getD (d1 % onN.length) ⟨[]⟩).ID
              (onN.getD (d2 % onN.length) ⟨[]⟩).ID ≥ 0
          · rw [if_pos hcmp] at h
            have hlen0 : rest0.length ≤ n := by
              simp only [List.length_cons] at hlen
              omega
            exact ih rest0 hlen0 (i + 1) onN es cs rest h hgt
          · rw [if_neg hcmp] at h
            cases hrec : mockConnOn i onN rest0 with
            | none => rw [hrec] at h; simp at h
            | some val =>
              obtain ⟨es0, cs0, rest0'⟩ := val
              rw [hrec] at h
              simp only [Option.some.injEq, Prod.mk.injEq] at h
              obtain ⟨h1, h2, h3⟩ := h
              subst h1 h2 h3
              have hlen0 : rest0.length ≤ n := by
                simp only [List.length_cons] at hlen
                omega
              obtain ⟨hl0, hm0⟩ := ih rest0 hlen0 i onN es0 cs0 rest0' hrec hgt
              refine ⟨by simpa using hl0, ?_⟩
              intro e hin
              rcases List.mem_cons.mp hin with rfl | hin0
              · refine ⟨⟨(onN.getD (d1 % onN.length) ⟨[]⟩).ID,
                  (onN.getD (d2 % onN.length) ⟨[]⟩).ID⟩, rfl, ?_⟩
                show bytesCompare (onN.getD (d1 % onN.length) ⟨[]⟩).ID
                  (onN.getD (d2 % onN.length) ⟨[]⟩).ID < 0
                omega
              · exact hm0 e hin0

/-- A zero-count node turn-off loop posts nothing and changes nothing. -/
lemma mockNodeOff_zero (onN : List SimNode) (offN : List NodeID)
    (draws : List Nat) : mockNodeOff 0 onN offN draws =
      some ([], onN, offN, draws) := rfl

/-- A zero-count connection turn-off loop posts nothing and changes nothing. -/
lemma mockConnOff_zero (conns : List SimConn) (draws : List Nat) :
    mockConnOff 0 conns draws = some ([], conns, draws) := rfl

/-- Claim C8: whenever tick `0` of `MockNetwork`, started from a fresh pool of
100 off nodes and no on nodes or connections, completes, it posts exactly 10
`Node`/`On` events followed by exactly 20 `Conn`/`On` events and nothing else,
and every posted connection's caller identity sorts strictly before its callee
identity under byte comparison (pairs failing the comparison are re-drawn,
never posted). -/
theorem mockNetwork_tick0_events
    (ids : List NodeID) (draws : List Nat) (es : List Entry) (st : NetState)
    (rest : List Nat) (h100 : ids.length = 100)
    (h : mockTick0 ids draws = some (es, st, rest)) :
    ∃ nes ces, es = nes ++ ces ∧ nes.length = 10 ∧ ces.length = 20 ∧
      (∀ e ∈ nes, e.typ = "Node" ∧ e.action = "On") ∧
      (∀ e ∈ ces, e.typ = "Conn" ∧ e.action = "On" ∧
        ∃ sc : SimConn, e.object = .conn sc ∧
          bytesCompare sc.Caller sc.Callee < 0) := by
  have hd0 : (deltas 0 0 0 0 0).getD 0 ⟨0, 0⟩ = ⟨10, 0⟩ := rfl
  have hd1 : (deltas 0 0 0 0 0).getD 1 ⟨0, 0⟩ = ⟨20, 0⟩ := rfl
  unfold mockTick0 mockTick at h
  rw [hd0, hd1] at h
  simp only [] at h
  cases h1 : mockNodeOn 10 [] ids draws with
  | none => rw [h1] at h; simp at h
  | some v1 =>
    obtain ⟨es1, onN1, offN1, dr1⟩ := v1
    rw [h1] at h
    simp only [mockNodeOff_zero] at h
    cases h3 : mockConnOn 20 onN1 dr1 with
    | none => rw [h3] at h; simp at h
    | some v3 =>
      obtain ⟨es3, cs3, dr3⟩ := v3
      rw [h3] at h
      simp only [mockConnOff_zero, Option.some.injEq, Prod.mk.injEq,
        List.append_nil, List.nil_append] at h
      obtain ⟨hes, _, _⟩ := h
      obtain ⟨hc1, hon1, _⟩ :=
        mockNodeOn_count 10 [] ids draws es1 onN1 offN1 dr1 h1 (by omega)
      obtain ⟨_, _, hmem1⟩ :=
        mockNodeOn_events 10 [] ids draws es1 onN1 offN1 dr1 h1
      have hgt : 1 < onN1.length := by
        simp only [List.length_nil] at hon1
        omega
      obtain ⟨hc3, hmem3⟩ :=
        mockConnOn_spec dr1.length dr1 le_rfl 20 onN1 es3 cs3 dr3 h3 hgt
      refine ⟨es1, es3, hes.symm, hc1, hc3, ?_, ?_⟩
      · intro e hin
        obtain ⟨sn, hesn, _, _⟩ := hmem1 e hin
        subst hesn
        exact ⟨rfl, rfl⟩
      · intro e hin
        obtain ⟨sc, hesc, hlt⟩ := hmem3 e hin
        subst hesc
        exact ⟨rfl, rfl, sc, rfl, hlt⟩

/-- Pool of 100 distinct single-byte identities, used by the C8 witness. -/
def idsEx : List NodeID := (List.range 100).map (fun k => [k])

/-- Modelled draws for the C8 witness: the node loop always picks index 0,
the connection loop always draws the pair (0, 1). -/
def drawsEx : List Nat := List.replicate 10 0 ++ (List.replicate 20 [0, 1]).flatten

/-- The entries tick 0 posts under `drawsEx`. -/
def esEx : List Entry :=
  (List.range 10).map (fun k => ⟨"Node", "On", .node ⟨[k]⟩⟩) ++
    List.replicate 20 ⟨"Conn", "On", .conn ⟨[0], [1]⟩⟩

/-- The network state after tick 0 under `drawsEx`. -/
def stEx : NetState :=
  ⟨(List.range 10).map (fun k => ⟨[k]⟩),
    ((List.range 100).map (fun k => [k])).drop 10,
    List.replicate 20 ⟨[0], [1]⟩⟩

/-- Witness for C8: a concrete completing run of tick 0 on the fresh
100-identity pool. -/
theorem mockNetwork_tick0_events_witness :
    idsEx.length = 100 ∧
    ∃ nes ces, esEx = nes ++ ces ∧ nes.length = 10 ∧ ces.length = 20 ∧
      (∀ e ∈ nes, e.typ = "Node" ∧ e.action = "On") ∧
      (∀ e ∈ ces, e.typ = "Conn" ∧ e.action = "On" ∧
        ∃ sc : SimConn, e.object = .conn sc ∧
          bytesCompare sc.Caller sc.Callee < 0) :=
  ⟨by decide,
    mockNetwork_tick0_events idsEx drawsEx esEx stEx [] (by decide) (by decide)⟩

/-- Claim C10: `MockNetwork` maintains the partition of its generated node
identities between the on set and the off pool.  First part: a completed tick
carries any permutation-partition of `ids` into a permutation-partition of
`ids`, and when the identities are distinct the on set and off pool stay
disjoint with sizes summing to the pool size.  Second and third parts: the
node turn-on loop posts `Node`/`On` only for nodes of the off pool and moves
them into the on set, and the node turn-off loop posts `Node`/`Off` only for
nodes of the on set and moves their identities back to the off pool. -/
theorem mockNetwork_partition :
    (∀ (st : NetState) (ds : List Delta) (draws : List Nat) (es : List Entry)
        (st' : NetState) (rest : List Nat) (ids : List NodeID),
      mockTick st ds draws = some (es, st', rest) →
      (st.onNodes.map SimNode.ID ++ st.offNodes).Perm ids →
      ((st'.onNodes.map SimNode.ID ++ st'.offNodes).Perm ids ∧
        (ids.Nodup →
          (st'.onNodes.map SimNode.ID).Disjoint st'.offNodes ∧
          st'.onNodes.length + st'.offNodes.length = ids.length))) ∧
    (∀ (i : Nat) (onN : List SimNode) (offN : List NodeID) (draws : List Nat)
        (es : List Entry) (onN' : List SimNode) (offN' : List NodeID)
        (rest : List Nat),
      mockNodeOn i onN offN draws = some (es, onN', offN', rest) →
      ∀ e ∈ es, ∃ sn : SimNode, e = ⟨"Node", "On", .node sn⟩ ∧
        sn.ID ∈ offN ∧ sn ∈ onN') ∧
    (∀ (i : Nat) (onN : List SimNode) (offN : List NodeID) (draws : List Nat)
        (es : List Entry) (onN' : List SimNode) (offN' : List NodeID)
        (rest : List Nat),
      mockNodeOff i onN offN draws = some (es, onN', offN', rest) →
      ∀ e ∈ es, ∃ sn : SimNode, e = ⟨"Node", "Off", .node sn⟩ ∧
        sn ∈ onN ∧ sn.ID ∈ offN') := by
  refine ⟨?_, ?_, ?_⟩
  · intro st ds draws es st' rest ids h hperm
    unfold mockTick at h
    simp only [] at h
    cases h1 : mockNodeOn (ds.getD 0 ⟨0, 0⟩).On st.onNodes st.offNodes draws with
    | none => rw [h1] at h; simp at h
    | some v1 =>
      obtain ⟨es1, onN1, offN1, dr1⟩ := v1
      rw [h1] at h
      simp only [] at h
      cases h2 : mockNodeOff (ds.getD 0 ⟨0, 0⟩).Off onN1 offN1 dr1 with
      | none => rw [h2] at h; simp at h
      | some v2 =>
        obtain ⟨es2, onN2, offN2, dr2⟩ := v2
        rw [h2] at h
        simp only [] at h
        cases h3 : mockConnOn (ds.getD 1 ⟨0, 0⟩).On onN2 dr2 with
        | none => rw [h3] at h; simp at h
        | some v3 =>
          obtain ⟨es3, cs3, dr3⟩ := v3
          rw [h3] at h
          simp only [] at h
          cases h4 : mockConnOff (ds.getD 1 ⟨0, 0⟩).Off (st.onConns ++ cs3) dr3 with
          | none => rw [h4] at h; simp at h
          | some v4 =>
            obtain ⟨es4, conns4, dr4⟩ := v4
            rw [h4] at h
            simp only [Option.some.injEq, Prod.mk.injEq] at h
            obtain ⟨_, hst, _⟩ := h
            obtain ⟨_, hp1, _⟩ := mockNodeOn_events _ _ _ _ _ _ _ _ h1
            obtain ⟨_, hp2, _⟩ := mockNodeOff_events _ _ _ _ _ _ _ _ h2
            have hp : (onN2.map SimNode.ID ++ offN2).Perm ids :=
              (hp2.trans hp1).trans hperm
            subst hst
            refine ⟨hp, ?_⟩
            intro hnd
            have hnodup : (onN2.map SimNode.ID ++ offN2).Nodup :=
              hp.nodup_iff.mpr hnd
            rw [List.nodup_append] at hnodup
            refine ⟨hnodup.2.2, ?_⟩
            have hl := hp.length_eq
            simp only [List.length_append, List.length_map] at hl
            exact hl
  · intro i onN offN draws es onN' offN' rest h
    exact (mockNodeOn_events i onN offN draws es onN' offN' rest h).2.2
  · intro i onN offN draws es onN' offN' rest h
    exact (mockNodeOff_events i onN offN draws es onN' offN' rest h).2.2

/-- Witness for C10: a one-node tick run for the partition part, and singleton
runs of the two node loops for the posted-event parts. -/
theorem mockNetwork_partition_witness :
    (((⟨[⟨[7]⟩], [], []⟩ : NetState).onNodes.map SimNode.ID ++
        (⟨[⟨[7]⟩], [], []⟩ : NetState).offNodes).Perm [[7]] ∧
      ((⟨[⟨[7]⟩], [], []⟩ : NetState).onNodes.map SimNode.ID).Disjoint
        (⟨[⟨[7]⟩], [], []⟩ : NetState).offNodes ∧
      (⟨[⟨[7]⟩], [], []⟩ : NetState).onNodes.length +
        (⟨[⟨[7]⟩], [], []⟩ : NetState).offNodes.length =
          ([[7]] : List NodeID).length) ∧
    (∃ sn : SimNode,
      (⟨"Node", "On", .node ⟨[5]⟩⟩ : Entry) = ⟨"Node", "On", .node sn⟩ ∧
      sn.ID ∈ ([[5]] : List NodeID) ∧ sn ∈ [(⟨[5]⟩ : SimNode)]) ∧
    (∃ sn : SimNode,
      (⟨"Node", "Off", .node ⟨[5]⟩⟩ : Entry) = ⟨"Node", "Off", .node sn⟩ ∧
      sn ∈ [(⟨[5]⟩ : SimNode)] ∧ sn.ID ∈ ([[5]] : List NodeID)) := by
  obtain ⟨p1, p2, p3⟩ := mockNetwork_partition
  have h1 := p1 ⟨[], [[7]], []⟩ [⟨1, 0⟩, ⟨0, 0⟩] [0]
    [⟨"Node", "On", .node ⟨[7]⟩⟩] ⟨[⟨[7]⟩], [], []⟩ [] [[7]]
    (by decide) (by decide)
  refine ⟨⟨h1.1, h1.2 (by decide)⟩, ?_, ?_⟩
  · exact p2 1 [] [[5]] [0] [⟨"Node", "On", .node ⟨[5]⟩⟩] [⟨[5]⟩] [] []
      (by decide) ⟨"Node", "On", .node ⟨[5]⟩⟩ (by decide)
  · exact p3 1 [⟨[5]⟩] [] [0] [⟨"Node", "Off", .node ⟨[5]⟩⟩] [] [[5]] []
      (by decide) ⟨"Node", "Off", .node ⟨[5]⟩⟩ (by decide)

end Simulations
